import Mathlib

/-!
A shallow embedding of the command-tree engine of `xcli-rs` (`src/lib.rs`):
the command tree, the dispatch algorithm (`Command::run_sub`), the lookup-only
resolution (`Command::locate_subcommand`), the user-data registry of `App`, and
the recursive prefix-completion engine (`PrefixCompleter::_complete_cmd`).

Modelling conventions:
* Rust `Result<CmdExeCode, XcliError>` becomes `Except XcliError CmdExeCode`.
* `println!` calls are modelled as entries appended to a `printed` list;
  `debug!`/`info!` logging has no user-visible effect and is not modelled.
* Actions take the remaining argument tokens; the `&App` argument that
  `run_sub` passes unchanged to every action is considered already applied,
  so an action is a function `List String → XcliResult`.
* Strings are modelled as their character sequences; the Rust code indexes
  by bytes, which coincides with characters on the ASCII command names and
  input lines the tool operates on.
-/

namespace Xcli

/-- The error enumeration of `xcli`, mirroring `enum XcliError`. -/
inductive XcliError where
  | BadSyntax
  | MissingHandler (name : String)
  | MissingArgument
  | BadArgument (detail : String)
  | MismatchArgument (wanted actual : Nat)
  | Other (msg : String)
deriving DecidableEq

/-- The `Display` text of each error, mirroring the `thiserror` attributes. -/
def XcliError.display : XcliError → String
  | .BadSyntax => "Bad syntax"
  | .MissingHandler n => "Missing handler: " ++ n ++ " not found"
  | .MissingArgument => "Missing required argument"
  | .BadArgument d => "Bad argument: " ++ d
  | .MismatchArgument w a =>
      "Mismatched argument(s): wanted: " ++ toString w ++ ", actual: " ++ toString a
  | .Other m => m

/-- The return code of a command action, mirroring `enum CmdExeCode`. -/
inductive CmdExeCode where
  | Ok
  | Exit
deriving DecidableEq

/-- `type XcliResult = Result<CmdExeCode, XcliError>`. -/
abbrev XcliResult := Except XcliError CmdExeCode

/-- A command action: the remaining tokens to a result (see header note). -/
abbrev CmdAction := List String → XcliResult

/-- The command tree, mirroring `struct Command`. -/
inductive Command where
  | mk (name : String) (aliasName : Option String) (about : Option String)
      (usage : Option String) (subcommands : List Command)
      (action : Option CmdAction)

def Command.name : Command → String
  | .mk n _ _ _ _ _ => n

def Command.aliasName : Command → Option String
  | .mk _ a _ _ _ _ => a

def Command.about : Command → Option String
  | .mk _ _ ab _ _ _ => ab

def Command.usage : Command → Option String
  | .mk _ _ _ u _ _ => u

def Command.subcommands : Command → List Command
  | .mk _ _ _ _ s _ => s

def Command.action : Command → Option CmdAction
  | .mk _ _ _ _ _ a => a

/-- `Command::new`. -/
def Command.new (n : String) : Command :=
  .mk n none none none [] none

/-- `Command::new_with_alias`. -/
def Command.new_with_alias (n s : String) : Command :=
  .mk n (some s) none none [] none

/-- `Command::get_description`: name, or `"{name}, {alias} "` when aliased. -/
def Command.get_description (c : Command) : String :=
  match c.aliasName with
  | some a => c.name ++ ", " ++ a ++ " "
  | none => c.name

/-- `self.usage.unwrap_or_else(|| self.name.as_ref())`. -/
def Command.usageOrName (c : Command) : String :=
  c.usage.getD c.name

/-- `Command::show_command_usage`: the single line it prints. -/
def Command.show_command_usage (c : Command) : List String :=
  ["Usage:       " ++ c.usageOrName]

/-- `Command::show_command_help`: the single (multi-line) string it prints. -/
def Command.show_command_help (c : Command) : List String :=
  ["Command:     " ++ c.get_description ++ "\nUsage:       " ++ c.usageOrName ++
    "\nDescription: " ++ c.about.getD ""]

/-- Rust `{:16}` display padding: pad right with spaces to width `w`. -/
def padDisplay (s : String) (w : Nat) : String :=
  s ++ String.mk (List.replicate (w - s.length) ' ')

/-- `Command::show_subcommand_help`: one printed line per subcommand. -/
def Command.show_subcommand_help (c : Command) : List String :=
  c.subcommands.map (fun sc => padDisplay sc.get_description 16 ++ ": " ++ sc.usageOrName)

/-- The child-matching test used by both `locate_subcommand` and `run_sub`:
`c.name == args[0] || c.alias.as_ref().map_or(false, |a| a == args[0])`. -/
def tokenMatches (tok : String) (c : Command) : Bool :=
  c.name == tok ||
    (match c.aliasName with
     | some a => a == tok
     | none => false)

/-- `Command::locate_subcommand`: lookup-only resolution, `None` on the first
token that matches no child, `Some self` when the tokens are exhausted.  It
invokes no action (its result type carries none). -/
def Command.locate_subcommand : Command → List String → Option Command
  | c, [] => some c
  | c, tok :: rest =>
    match c.subcommands.find? (tokenMatches tok) with
    | some found => found.locate_subcommand rest
    | none => none

/-- Rust `{:?}` debug rendering of the token slice printed by `run_sub`. -/
def reprTokens (args : List String) : String :=
  "[" ++ String.intercalate ", " (args.map (fun a => "\"" ++ a ++ "\"")) ++ "]"

/-- The observable outcome of one `run_sub` dispatch: the returned
`XcliResult`, every `println!` emitted, and every action invocation performed
(recorded as the node together with the tokens handed to its action). -/
structure RunResult where
  ret : XcliResult
  printed : List String
  invoked : List (Command × List String)

/-- The tail of `Command::run_sub` after the child-matching loop: the current
node is the dispatch target.  Runs the node's action (printing the error
formats of lines 445-454 of `lib.rs`), or — with no action — prints either the
unknown-command line or the node's help followed by its children's help. -/
def Command.dispatchHere (c : Command) (args : List String) : RunResult :=
  match c.action with
  | some action =>
    let ret := action args
    { ret := ret
      printed :=
        match ret with
        | .error (XcliError.Other err) => [err]
        | .error err => [err.display ++ "\n"] ++ c.show_command_usage
        | .ok _ => []
      invoked := [(c, args)] }
  | none =>
    if !args.isEmpty then
      { ret := .ok CmdExeCode.Ok
        printed := ["Unknown command or arguments : " ++ reprTokens args]
        invoked := [] }
    else
      { ret := .ok CmdExeCode.Ok
        printed := c.show_command_help ++ c.show_subcommand_help
        invoked := [] }

/-- `Command::run_sub`: with a non-empty token list, recurse into the first
child whose name or alias equals the head token; otherwise (or when no child
matches) dispatch at the current node with the unconsumed tokens. -/
def Command.run_sub : Command → List String → RunResult
  | c, [] => c.dispatchHere []
  | c, tok :: rest =>
    match c.subcommands.find? (tokenMatches tok) with
    | some cmd => cmd.run_sub rest
    | none => c.dispatchHere (tok :: rest)

/-- The dispatch target described by the specification (§4.1): follow
name-or-alias matches child by child; stop when the tokens run out or no child
matches, in which case the current node is the target and keeps every
unconsumed token. -/
def dispatchTarget : Command → List String → Command × List String
  | c, [] => (c, [])
  | c, tok :: rest =>
    match c.subcommands.find? (tokenMatches tok) with
    | some cmd => dispatchTarget cmd rest
    | none => (c, tok :: rest)

/-- Append a subcommand, mirroring `self.tree.subcommands.push(subcmd)`. -/
def Command.pushSubcommand : Command → Command → Command
  | .mk n a ab u subs act, sc => .mk n a ab u (subs ++ [sc]) act

/-- The builder `Command::about` (named apart from the projection). -/
def Command.aboutIs : Command → String → Command
  | .mk n a _ u subs act, ab => .mk n a (some ab) u subs act

/-- The builder `Command::usage` (named apart from the projection). -/
def Command.usageIs : Command → String → Command
  | .mk n a ab _ subs act, u => .mk n a ab (some u) subs act

/-- The builder `Command::action` (named apart from the projection). -/
def Command.actionIs : Command → CmdAction → Command
  | .mk n a ab u subs _, act => .mk n a ab u subs (some act)

/-- The application shell, mirroring `struct App`.  The `rustyline` editor is
outside the embedding; `handlers` (a `HashMap<String, IAny>`) is modelled
extensionally as a partial map, with the opaque `IAny` values as a type
parameter `α`. -/
structure App (α : Type) where
  name : String
  version : Option String
  author : Option String
  tree : Command
  handlers : String → Option α

/-- The built-in command tree installed by `App::new`.  The built-in actions
close over the interactive shell (editor mode, the process logger, the tree
printer); their bodies are outside every claim, so each is modelled as the
action slot being occupied, with `exit` returning `Exit` as in the source. -/
def builtin_cmds : Command :=
  (Command.new "").aboutIs "Interactive CLI"
    |>.pushSubcommand ((Command.new "tree").aboutIs "prints the whole command tree"
        |>.usageIs "tree" |>.actionIs (fun _ => Except.ok CmdExeCode.Ok))
    |>.pushSubcommand ((Command.new "mode").aboutIs "manages the line editor mode, vi/emcas"
        |>.usageIs "mode [vi|emacs]" |>.actionIs (fun _ => Except.ok CmdExeCode.Ok))
    |>.pushSubcommand ((Command.new_with_alias "log" "l").aboutIs "manages log level filter"
        |>.usageIs "log [off|error|warn|info|debug|trace]"
        |>.actionIs (fun _ => Except.ok CmdExeCode.Ok))
    |>.pushSubcommand ((Command.new_with_alias "help" "h").aboutIs "displays help information"
        |>.usageIs "help [command]" |>.actionIs (fun _ => Except.ok CmdExeCode.Ok))
    |>.pushSubcommand ((Command.new "exit").aboutIs "quits CLI and exits to shell"
        |>.actionIs (fun _ => Except.ok CmdExeCode.Exit))
    |>.pushSubcommand ((Command.new_with_alias "version" "v").aboutIs "shows version information"
        |>.actionIs (fun _ => Except.ok CmdExeCode.Ok))

/-- `App::new`: empty handler registry, built-in command tree. -/
def App.new (α : Type) (n : String) : App α :=
  { name := n
    version := none
    author := none
    tree := builtin_cmds
    handlers := fun _ => none }

/-- `App::add_subcommand_with_userdata`: insert the value under the
subcommand's name (`HashMap::insert`, replacing any previous value) and push
the subcommand onto the tree. -/
def App.add_subcommand_with_userdata {α : Type} (app : App α) (subcmd : Command)
    (value : α) : App α :=
  { app with
    handlers := fun k => if k = subcmd.name then some value else app.handlers k
    tree := app.tree.pushSubcommand subcmd }

/-- `App::get_handler`: `self.handlers.get(&ks).ok_or(XcliError::MissingHandler(ks))`. -/
def App.get_handler {α : Type} (app : App α) (key : String) : Except XcliError α :=
  match app.handlers key with
  | some v => Except.ok v
  | none => Except.error (XcliError.MissingHandler key)

/-- Fold a sequence of `add_subcommand_with_userdata` registrations. -/
def registerAll {α : Type} (app : App α) (regs : List (Command × α)) : App α :=
  regs.foldl (fun a p => a.add_subcommand_with_userdata p.1 p.2) app

/-- The value the specification associates with `key` after a registration
sequence: the value of the last registration whose subcommand bears that name,
if any.  (Spec §3: "a mapping from command name to an opaque value ...
an action retrieves its associated value by its own command name".) -/
def lastRegisteredValue {α : Type} (key : String) : List (Command × α) → Option α
  | [] => none
  | r :: rs =>
    match lastRegisteredValue key rs with
    | some v => some v
    | none => if r.1.name == key then some r.2 else none

/-! ### String primitives

Character-sequence models of the Rust string operations used by the
completer: `&line[..pos]`, `&line[n..]`, `.len()`, `.starts_with(..)` and
`.trim_start()` (see the header note on bytes vs characters). -/

/-- `&s[..n]`. -/
def strTake (s : String) (n : Nat) : String :=
  String.mk (s.data.take n)

/-- `&s[n..]`. -/
def strDrop (s : String) (n : Nat) : String :=
  String.mk (s.data.drop n)

/-- `s.len()`. -/
def strLen (s : String) : Nat :=
  s.data.length

/-- `s.starts_with(&p)`, i.e. `p` is a leading piece of `s`. -/
def strIsPrefixOf (p s : String) : Bool :=
  p.data.isPrefixOf s.data

/-- `s.trim_start()`. -/
def strTrimLeft (s : String) : String :=
  String.mk (s.data.dropWhile Char.isWhitespace)

/-- `let line = line[..pos].trim_start();` — the scan the completer works on. -/
def scan_of (line : String) (pos : Nat) : String :=
  strTrimLeft (strTake line pos)

/-! ### The completion shadow tree -/

/-- A node of the completion shadow tree, mirroring `struct PrefixNode`. -/
inductive PrefixNode where
  | mk (name : String) (children : List PrefixNode)

def PrefixNode.name : PrefixNode → String
  | .mk n _ => n

def PrefixNode.children : PrefixNode → List PrefixNode
  | .mk _ c => c

mutual

/-- The number of nodes of a shadow tree (used as recursion fuel below). -/
def PrefixNode.size : PrefixNode → Nat
  | .mk _ cs => sizeForest cs + 1

def sizeForest : List PrefixNode → Nat
  | [] => 0
  | c :: cs => PrefixNode.size c + sizeForest cs

end

mutual

/-- `PrefixNode::new` + `PrefixCompleter::generate_cmd_tree`: the shadow node
of a command stores the command's name with a single `" "` appended, and the
shadow nodes of its subcommands, in order. -/
def generate_cmd_tree : Command → PrefixNode
  | .mk n _ _ _ subs _ => .mk (n ++ " ") (generate_cmd_forest subs)

/-- The shadow nodes of a subcommand list, in order. -/
def generate_cmd_forest : List Command → List PrefixNode
  | [] => []
  | c :: cs => generate_cmd_tree c :: generate_cmd_forest cs

end

/-- The completer, mirroring `struct PrefixCompleter`. -/
structure PrefixCompleter where
  tree : PrefixNode

/-- `PrefixCompleter::new`: build the shadow tree of the command tree. -/
def PrefixCompleter.new (cmd_tree : Command) : PrefixCompleter :=
  ⟨generate_cmd_tree cmd_tree⟩

/-! ### The completion scan -/

/-- The mutable state of the child loop in `_complete_cmd`: the `go_next`
flag, the accumulated candidate fragments `new_line`, the last recorded
`offset` and the last recorded `next_node`. -/
structure ScanState where
  go_next : Bool
  new_line : List String
  offset : Nat
  next_node : Option PrefixNode

/-- One iteration of the child loop of `_complete_cmd` (lines 557-578 of
`lib.rs`): a full match (the child's space-suffixed name is a leading piece of
the scan) records `" "` on exact length, the whole child name otherwise, and
sets `go_next`; a strict-prefix match (the scan is a proper leading piece of
the child's name) records the untyped remainder of the name. -/
def scanChild (line : String) (st : ScanState) (child : PrefixNode) : ScanState :=
  if strLen child.name ≤ strLen line then
    if strIsPrefixOf child.name line then
      { st with
        new_line := st.new_line ++ [if strLen line == strLen child.name then " " else child.name]
        offset := strLen child.name
        next_node := some child
        go_next := true }
    else st
  else if strIsPrefixOf line child.name then
    { st with
      new_line := st.new_line ++ [strDrop child.name (strLen line)]
      offset := strLen line
      next_node := some child }
  else st

/-- The whole child loop of `_complete_cmd`, started from the initial state. -/
def scanChildren (line : String) (cs : List PrefixNode) : ScanState :=
  cs.foldl (scanChild line) { go_next := false, new_line := [], offset := 0, next_node := none }

/-- The candidate fragment a single child contributes, if any (the value
`scanChild` appends to `new_line`). -/
def childFragment (line : String) (child : PrefixNode) : Option String :=
  if strLen child.name ≤ strLen line then
    if strIsPrefixOf child.name line then
      some (if strLen line == strLen child.name then " " else child.name)
    else none
  else if strIsPrefixOf line child.name then
    some (strDrop child.name (strLen line))
  else none

/-- `PrefixCompleter::_complete_cmd`, with explicit recursion fuel.  Each
recursive call descends into a child of the current node, so any fuel of at
least the node count of the subtree never reaches the `0` case; `_complete_cmd` below supplies
exactly that. -/
def completeFuel : Nat → PrefixNode → String → Nat → List String
  | 0, _, _, _ => []
  | fuel + 1, node, line, pos =>
    let sc := scan_of line pos
    let st := scanChildren sc node.children
    if st.new_line.length ≠ 1 then st.new_line
    else if st.go_next then
      match st.next_node with
      | some nxt =>
        let line2 := strTrimLeft (strDrop sc st.offset)
        completeFuel fuel nxt line2 (strLen line2)
      | none => st.new_line
    else st.new_line

/-- `PrefixCompleter::_complete_cmd`: the candidate fragments for `line` with
the cursor at `pos`, at the subtree rooted at `node`. -/
def _complete_cmd (node : PrefixNode) (line : String) (pos : Nat) : List String :=
  completeFuel (PrefixNode.size node) node line pos

/-- `PrefixCompleter::complete_cmd` (also `Completer::complete`, which merely
forwards to it): returns the pair `(pos, v)` — the `rustyline::Result` wrapper
is always `Ok` and is dropped. -/
def PrefixCompleter.complete_cmd (pc : PrefixCompleter) (line : String) (pos : Nat) :
    Nat × List String :=
  (pos, _complete_cmd pc.tree line pos)

/-- The "scan is a proper leading piece of the space-suffixed child name"
test of the ambiguity claims. -/
def strictPrefixMatch (line : String) (child : PrefixNode) : Bool :=
  decide (strLen line < strLen child.name) && strIsPrefixOf line child.name

/-! ### Alias erasure and name collections (for the shadow-tree claims) -/

mutual

/-- The same command tree with every alias removed. -/
def eraseAliases : Command → Command
  | .mk n _ ab u subs act => .mk n none ab u (eraseAliasesList subs) act

def eraseAliasesList : List Command → List Command
  | [] => []
  | c :: cs => eraseAliases c :: eraseAliasesList cs

end

mutual

/-- Every command name in a command tree, in preorder. -/
def Command.namesOf : Command → List String
  | .mk n _ _ _ subs _ => n :: namesOfList subs

def namesOfList : List Command → List String
  | [] => []
  | c :: cs => Command.namesOf c ++ namesOfList cs

end

mutual

/-- Every stored name in a shadow tree, in preorder. -/
def PrefixNode.allNames : PrefixNode → List String
  | .mk n cs => n :: allNamesList cs

def allNamesList : List PrefixNode → List String
  | [] => []
  | c :: cs => PrefixNode.allNames c ++ allNamesList cs

end

/-! ### Concrete trees used by the witness theorems -/

/-- A leaf with an alias, as in the repository's `test_cli` example. -/
def demoTest1 : Command :=
  .mk "test1" (some "t1") (some "controls testing features") (some "test1") []
    (some (fun _ => Except.ok CmdExeCode.Ok))

/-- A leaf whose action reports an argument-count mismatch. -/
def demoMismatch : Command :=
  .mk "mismatch" none none (some "mismatch args...") []
    (some (fun args => Except.error (XcliError.MismatchArgument 10 args.length)))

/-- A leaf whose action fails with the generic message-only error. -/
def demoOther : Command :=
  .mk "other" none none none []
    (some (fun _ => Except.error (XcliError.Other "custom message")))

/-- A category node: children, no action. -/
def demoCat : Command :=
  .mk "cat" none (some "a category") none [demoTest1] none

/-- A root tying the demo nodes together. -/
def demoRoot : Command :=
  .mk "" none (some "Interactive CLI") none [demoTest1, demoMismatch, demoOther, demoCat] none

/-- A root whose single child is reachable only through its alias-free name. -/
def aliasDemoRoot : Command :=
  .mk "" none none none [demoTest1] none

/-- The `log → level` subtree of the single-descent claim. -/
def logDemoLog : Command :=
  .mk "log" none none none [.mk "level" none none none [] none] none

/-- The `root → log → level` tree of the single-descent claim. -/
def logDemoRoot : Command :=
  .mk "" none none none [logDemoLog] none

/-- A shadow node with two siblings sharing the typed prefix `"te"`. -/
def ambDemoNode : PrefixNode :=
  .mk " " [.mk "test1 " [], .mk "test2 " []]

/-! ### Dispatch lemmas -/

/-- `run_sub` dispatches exactly at the node and leftover tokens described by
the specification's traversal. -/
theorem run_sub_eq_dispatchHere : ∀ (args : List String) (c : Command),
    Command.run_sub c args =
      Command.dispatchHere (dispatchTarget c args).1 (dispatchTarget c args).2
  | [], _ => rfl
  | tok :: rest, c => by
    simp only [Command.run_sub, dispatchTarget]
    cases h : c.subcommands.find? (tokenMatches tok) with
    | some cmd => exact run_sub_eq_dispatchHere rest cmd
    | none => rfl

/-- The invocations a single `dispatchHere` performs: one when the node has an
action, none otherwise. -/
theorem dispatchHere_invoked : ∀ (c : Command) (args : List String),
    (c.dispatchHere args).invoked = (c.action.map (fun _ => (c, args))).toList
  | .mk n a ab u subs act, args => by
    cases act with
    | none =>
      simp only [Command.dispatchHere, Command.action]
      split <;> rfl
    | some f => rfl

/-- `dispatchHere` at a node with no action: `Ok`, no invocation, and either
the unknown-command line or the node's help. -/
theorem dispatchHere_no_action : ∀ (c : Command) (args : List String), c.action = none →
    c.dispatchHere args =
      (if !args.isEmpty then
        { ret := Except.ok CmdExeCode.Ok
          printed := ["Unknown command or arguments : " ++ reprTokens args]
          invoked := [] }
      else
        { ret := Except.ok CmdExeCode.Ok
          printed := c.show_command_help ++ c.show_subcommand_help
          invoked := [] })
  | .mk n a ab u subs act, args, h => by
    cases act with
    | none => rfl
    | some f => simp [Command.action] at h

/-- `dispatchHere` at a node with an action: run it, print by error kind,
record the single invocation. -/
theorem dispatchHere_with_action : ∀ (c : Command) (args : List String) (f : CmdAction),
    c.action = some f →
    c.dispatchHere args =
      { ret := f args
        printed :=
          match f args with
          | .error (XcliError.Other m) => [m]
          | .error e => [e.display ++ "\n"] ++ c.show_command_usage
          | .ok _ => []
        invoked := [(c, args)] }
  | .mk n a ab u subs act, args, f, h => by
    cases act with
    | none => simp [Command.action] at h
    | some g =>
      have hg : g = f := by
        simpa [Command.action] using h
      rw [← hg]
      rfl

/-- `locate_subcommand` succeeds exactly when the specification's traversal
consumes every token, and then returns the reached node. -/
theorem locate_eq_some_iff : ∀ (args : List String) (c d : Command),
    (Command.locate_subcommand c args = some d ↔ dispatchTarget c args = (d, []))
  | [], c, d => by
    simp only [Command.locate_subcommand, dispatchTarget]
    constructor
    · intro h
      injection h with h
      rw [h]
    · intro h
      rw [(Prod.mk.injEq ..).mp h |>.1]
  | tok :: rest, c, d => by
    simp only [Command.locate_subcommand, dispatchTarget]
    cases h : c.subcommands.find? (tokenMatches tok) with
    | some found => exact locate_eq_some_iff rest found d
    | none => simp


/-! ### Claim theorems -/

/-- Claim C1: `run_sub` invokes at most one action, namely the action of the
node reached by repeatedly matching the next token against a child's name or
alias in child order, recursing on the first match and stopping when the
tokens are exhausted or no child matches; when no child matches, the current
node is the dispatch target and its action receives all unconsumed tokens. -/
theorem run_sub_invokes_at_most_one_action (c : Command) (args : List String) :
    (Command.run_sub c args).invoked.length ≤ 1 ∧
    (Command.run_sub c args).invoked =
      ((dispatchTarget c args).1.action.map
        (fun _ => ((dispatchTarget c args).1, (dispatchTarget c args).2))).toList := by
  rw [run_sub_eq_dispatchHere, dispatchHere_invoked]
  refine ⟨?_, rfl⟩
  cases (dispatchTarget c args).1.action <;> simp

/-- Claim C3: `locate_subcommand c args` returns `some node` exactly when
every token matches a child's name or alias at its level — i.e. when the
dispatch traversal consumes all the tokens — and then `node` is the node so
reached; any mismatch yields `none`, and an empty token list yields `some` of
the node it was called on.  (`locate_subcommand` invokes no action: its
result is an `Option Command` and the embedding gives it no effect log.) -/
theorem locate_subcommand_characterization (c d : Command) (args : List String) :
    (Command.locate_subcommand c args = some d ↔ dispatchTarget c args = (d, [])) ∧
    Command.locate_subcommand c [] = some c :=
  ⟨locate_eq_some_iff args c d, rfl⟩

/-- Claim C3 witness: locating `["cat", "test1"]` from the demo root reaches
`demoTest1` by consuming both tokens. -/
theorem locate_subcommand_characterization_witness :
    Command.locate_subcommand demoRoot ["cat", "test1"] = some demoTest1 :=
  (locate_subcommand_characterization demoRoot demoTest1 ["cat", "test1"]).1.mpr rfl

/-- Claim C6: when the dispatch target has no action, `run_sub` returns
`Ok` (never `Exit`, never an error) and invokes nothing; with leftover tokens
it prints the unknown-command line, and with none it prints the node's own
help plus one summary line per child. -/
theorem run_sub_without_action_returns_ok (c : Command) (args : List String)
    (h : (dispatchTarget c args).1.action = none) :
    (Command.run_sub c args).ret = Except.ok CmdExeCode.Ok ∧
    (Command.run_sub c args).invoked = [] ∧
    (Command.run_sub c args).printed =
      (if (dispatchTarget c args).2.isEmpty then
        (dispatchTarget c args).1.show_command_help ++
          (dispatchTarget c args).1.show_subcommand_help
       else ["Unknown command or arguments : " ++ reprTokens (dispatchTarget c args).2]) ∧
    ((dispatchTarget c args).1.show_subcommand_help).length =
      (dispatchTarget c args).1.subcommands.length := by
  rw [run_sub_eq_dispatchHere, dispatchHere_no_action _ _ h]
  refine ⟨?_, ?_, ?_, ?_⟩
  · split <;> rfl
  · split <;> rfl
  · by_cases hE : (dispatchTarget c args).2.isEmpty <;> simp [hE]
  · simp [Command.show_subcommand_help]

/-- Claim C6 witness: dispatching `["cat"]` reaches the category node with no
leftover tokens; dispatching `["cat", "zzz"]` leaves an unmatched token. -/
theorem run_sub_without_action_returns_ok_witness :
    ((Command.run_sub demoRoot ["cat"]).ret = Except.ok CmdExeCode.Ok ∧
      (Command.run_sub demoRoot ["cat"]).invoked = [] ∧
      (Command.run_sub demoRoot ["cat"]).printed =
        (if (dispatchTarget demoRoot ["cat"]).2.isEmpty then
          (dispatchTarget demoRoot ["cat"]).1.show_command_help ++
            (dispatchTarget demoRoot ["cat"]).1.show_subcommand_help
         else ["Unknown command or arguments : " ++
            reprTokens (dispatchTarget demoRoot ["cat"]).2]) ∧
      ((dispatchTarget demoRoot ["cat"]).1.show_subcommand_help).length =
        (dispatchTarget demoRoot ["cat"]).1.subcommands.length) ∧
    (Command.run_sub demoRoot ["cat", "zzz"]).printed =
      ["Unknown command or arguments : " ++ reprTokens ["zzz"]] :=
  ⟨run_sub_without_action_returns_ok demoRoot ["cat"] rfl,
    ((run_sub_without_action_returns_ok demoRoot ["cat", "zzz"] rfl).2.2.1).trans rfl⟩

/-- Claim C7: `run_sub` returns the invoked action's result unchanged; an
`Other` error prints only its message, every other error kind prints its
message followed by the command's usage line, a success prints nothing — and
the dispatch always yields a `RunResult`, so no error aborts it. -/
theorem run_sub_surfaces_action_result (c : Command) (args : List String)
    (act : CmdAction) (h : (dispatchTarget c args).1.action = some act) :
    (Command.run_sub c args).ret = act (dispatchTarget c args).2 ∧
    (Command.run_sub c args).printed =
      (match act (dispatchTarget c args).2 with
       | .error (XcliError.Other m) => [m]
       | .error e => [e.display ++ "\n"] ++ (dispatchTarget c args).1.show_command_usage
       | .ok _ => []) := by
  rw [run_sub_eq_dispatchHere, dispatchHere_with_action _ _ act h]
  exact ⟨rfl, rfl⟩

/-- Claim C7 witness: the mismatch action's error is returned unchanged and
printed with the usage reminder; the `Other` action's message is printed
alone. -/
theorem run_sub_surfaces_action_result_witness :
    ((Command.run_sub demoRoot ["mismatch", "x", "y"]).ret =
        Except.error (XcliError.MismatchArgument 10 2) ∧
      (Command.run_sub demoRoot ["mismatch", "x", "y"]).printed =
        ["Mismatched argument(s): wanted: 10, actual: 2\n", "Usage:       mismatch args..."]) ∧
    (Command.run_sub demoRoot ["other"]).printed = ["custom message"] := by
  have h1 := run_sub_surfaces_action_result demoRoot ["mismatch", "x", "y"]
    (fun args => Except.error (XcliError.MismatchArgument 10 args.length)) rfl
  have h2 := run_sub_surfaces_action_result demoRoot ["other"]
    (fun _ => Except.error (XcliError.Other "custom message")) rfl
  exact ⟨⟨h1.1.trans rfl, h1.2.trans rfl⟩, h2.2.trans rfl⟩

/-- `find?` returns the distinguished element when it satisfies the predicate,
belongs to the list, and nothing else in the list satisfies it. -/
theorem find?_eq_some_of_unique {β : Type} (p : β → Bool) (d : β) :
    ∀ (l : List β), d ∈ l → p d = true →
      (∀ e ∈ l, e = d ∨ p e = false) → l.find? p = some d
  | [], h, _, _ => absurd h (List.not_mem_nil d)
  | e :: l, hmem, hp, hu => by
    rcases hu e (List.mem_cons_self e l) with rfl | hpe
    · simp [List.find?, hp]
    · have hd : d ∈ l := by
        rcases List.mem_cons.mp hmem with rfl | h'
        · rw [hp] at hpe
          cases hpe
        · exact h'
      simp only [List.find?, hpe]
      exact find?_eq_some_of_unique p d l hd hp (fun x hx => hu x (List.mem_cons_of_mem e hx))

/-- Claim C8: a child `d` registered with name `nm` and alias `al`, assuming
the data-model uniqueness of identifiers at sibling scope (no other sibling
matches either token), is resolved identically by `run_sub` and by
`locate_subcommand` whether the token used is the name or the alias: both
recurse into `d` with the same leftover tokens, so they reach the same node,
invoke the same action and produce the same result. -/
theorem alias_and_name_resolve_identically (c d : Command) (nm al : String)
    (rest : List String) (hmem : d ∈ c.subcommands) (hn : d.name = nm)
    (ha : d.aliasName = some al)
    (hu : ∀ e ∈ c.subcommands,
      e = d ∨ (tokenMatches nm e = false ∧ tokenMatches al e = false)) :
    Command.run_sub c (nm :: rest) = Command.run_sub d rest ∧
    Command.run_sub c (al :: rest) = Command.run_sub d rest ∧
    Command.locate_subcommand c (nm :: rest) = Command.locate_subcommand d rest ∧
    Command.locate_subcommand c (al :: rest) = Command.locate_subcommand d rest := by
  have hfn : c.subcommands.find? (tokenMatches nm) = some d :=
    find?_eq_some_of_unique _ d c.subcommands hmem (by simp [tokenMatches, hn])
      (fun e he => (hu e he).imp id And.left)
  have hfa : c.subcommands.find? (tokenMatches al) = some d :=
    find?_eq_some_of_unique _ d c.subcommands hmem (by simp [tokenMatches, ha])
      (fun e he => (hu e he).imp id And.right)
  refine ⟨?_, ?_, ?_, ?_⟩ <;>
    simp [Command.run_sub, Command.locate_subcommand, hfn, hfa]

/-- Claim C8 witness: in the demo tree, `["test1"]` and `["t1"]` both dispatch
to the `test1` node. -/
theorem alias_and_name_resolve_identically_witness :
    Command.run_sub demoRoot ["test1"] = Command.run_sub demoTest1 [] ∧
    Command.run_sub demoRoot ["t1"] = Command.run_sub demoTest1 [] ∧
    Command.locate_subcommand demoRoot ["test1"] = Command.locate_subcommand demoTest1 [] ∧
    Command.locate_subcommand demoRoot ["t1"] = Command.locate_subcommand demoTest1 [] := by
  have h := alias_and_name_resolve_identically demoRoot demoTest1 "test1" "t1" []
    (List.mem_cons_self _ _) rfl rfl ?_
  · exact h
  · intro e he
    have : e = demoTest1 ∨ e = demoMismatch ∨ e = demoOther ∨ e = demoCat := by
      simpa [demoRoot, Command.subcommands] using he
    rcases this with rfl | rfl | rfl | rfl
    · exact Or.inl rfl
    · exact Or.inr ⟨rfl, rfl⟩
    · exact Or.inr ⟨rfl, rfl⟩
    · exact Or.inr ⟨rfl, rfl⟩

/-- The handler map after a registration sequence: the last registration under
`key` wins, and with none the original map is consulted. -/
theorem registerAll_handlers {α : Type} :
    ∀ (regs : List (Command × α)) (app : App α) (key : String),
    (registerAll app regs).handlers key =
      (match lastRegisteredValue key regs with
       | some v => some v
       | none => app.handlers key)
  | [], app, key => rfl
  | r :: rs, app, key => by
    have ih := registerAll_handlers rs (app.add_subcommand_with_userdata r.1 r.2) key
    simp only [registerAll, List.foldl] at ih ⊢
    rw [ih]
    simp only [lastRegisteredValue]
    cases h : lastRegisteredValue key rs with
    | some v => rfl
    | none =>
      simp only [App.add_subcommand_with_userdata]
      by_cases hk : r.1.name = key
      · simp [hk]
      · simp only [hk, if_false, beq_iff_eq, ite_eq_right_iff]
        intro h
        exact absurd h.symm hk

/-- Claim C9: after any sequence of `add_subcommand_with_userdata`
registrations on a fresh `App`, `get_handler key` returns exactly the value
registered under a subcommand named `key` (the last such registration), and
`MissingHandler key` — not a default — for every unregistered name. -/
theorem get_handler_returns_registered_value {α : Type} (regs : List (Command × α))
    (key : String) :
    (registerAll (App.new α "demo") regs).get_handler key =
      (match lastRegisteredValue key regs with
       | some v => Except.ok v
       | none => Except.error (XcliError.MissingHandler key)) := by
  unfold App.get_handler
  rw [registerAll_handlers]
  cases lastRegisteredValue key regs <;> rfl

/-! ### Completion-scan lemmas -/

/-- One loop iteration appends exactly the child's fragment, if any. -/
theorem scanChild_new_line (line : String) (st : ScanState) (c : PrefixNode) :
    (scanChild line st c).new_line = st.new_line ++ (childFragment line c).toList := by
  unfold scanChild childFragment
  split_ifs <;> simp

/-- The whole loop accumulates the fragments of all children, in order. -/
theorem foldl_scanChild_new_line (line : String) :
    ∀ (cs : List PrefixNode) (st : ScanState),
    (cs.foldl (scanChild line) st).new_line = st.new_line ++ cs.filterMap (childFragment line)
  | [], st => by simp
  | c :: cs, st => by
    rw [List.foldl_cons, foldl_scanChild_new_line line cs, scanChild_new_line,
      List.filterMap_cons]
    cases childFragment line c <;> simp

/-- `scanChildren` collects the fragments of all children, in child order. -/
theorem scanChildren_new_line (line : String) (cs : List PrefixNode) :
    (scanChildren line cs).new_line = cs.filterMap (childFragment line) := by
  rw [scanChildren, foldl_scanChild_new_line]
  rfl

/-- Every shadow tree has at least one node. -/
theorem PrefixNode.one_le_size : ∀ node : PrefixNode, 1 ≤ PrefixNode.size node
  | .mk n cs => by
    rw [PrefixNode.size]
    omega

/-- A strict-prefix match contributes the untyped remainder of its name. -/
theorem childFragment_of_strictPrefixMatch (s : String) (c : PrefixNode)
    (h : strictPrefixMatch s c = true) :
    childFragment s c = some (strDrop c.name (strLen s)) := by
  have h' : strLen s < strLen c.name ∧ strIsPrefixOf s c.name = true := by
    simpa [strictPrefixMatch] using h
  unfold childFragment
  rw [if_neg (by omega), if_pos h'.2]

/-- A `filterMap` that is pointwise `some` is a `map`. -/
theorem filterMap_eq_map_of_forall {β γ : Type} (g : β → Option γ) (f : β → γ) :
    ∀ l : List β, (∀ x ∈ l, g x = some (f x)) → l.filterMap g = l.map f
  | [], _ => rfl
  | x :: l, h => by
    rw [List.filterMap_cons, h x (List.mem_cons_self x l),
      filterMap_eq_map_of_forall g f l (fun y hy => h y (List.mem_cons_of_mem x hy)),
      List.map_cons]

/-- Claim C2 counterexample: completing `" te"` with the cursor at position 3
over the demo tree returns insertion offset 3 — the cursor position — while
the offset recorded during the child scan (a strict-prefix match of
`"test1 "`) is the scan length 2, so the returned first component is not the
recorded offset. -/
theorem complete_cmd_offset_counterexample :
    (PrefixCompleter.complete_cmd (PrefixCompleter.new demoRoot) " te" 3).1 = 3 ∧
    (scanChildren (scan_of " te" 3) (PrefixCompleter.new demoRoot).tree.children).offset = 2 ∧
    (3 : Nat) ≠ 2 :=
  ⟨rfl, by decide, by decide⟩

/-- Claim C2 (amended): the first component of the pair returned by
`complete_cmd` is always the cursor position `pos` passed in; the offset
recorded during the child scan is used only to advance past a single full
match when descending and is never returned. -/
theorem complete_cmd_fst_eq_pos (pc : PrefixCompleter) (line : String) (pos : Nat) :
    (pc.complete_cmd line pos).1 = pos :=
  rfl

/-- Claim C4: at a node where the (non-empty) scan is a strict prefix of two
or more children's space-suffixed names, `_complete_cmd` returns the
candidate list of the child scan as-is, without recursing into any child, and
that list contains for each strict-prefix-matched sibling, in child order,
the suffix of its name past the scan. -/
theorem ambiguous_candidates_returned_without_descent (node : PrefixNode) (line : String)
    (pos : Nat) (hne : scan_of line pos ≠ "")
    (h2 : 2 ≤ (node.children.filter (strictPrefixMatch (scan_of line pos))).length) :
    _complete_cmd node line pos = node.children.filterMap (childFragment (scan_of line pos)) ∧
    ((node.children.filter (strictPrefixMatch (scan_of line pos))).map
        (fun child => strDrop child.name (strLen (scan_of line pos)))).Sublist
      (node.children.filterMap (childFragment (scan_of line pos))) := by
  have hmapeq : (node.children.filter (strictPrefixMatch (scan_of line pos))).filterMap
      (childFragment (scan_of line pos)) =
      (node.children.filter (strictPrefixMatch (scan_of line pos))).map
        (fun child => strDrop child.name (strLen (scan_of line pos))) :=
    filterMap_eq_map_of_forall _ _ _
      (fun x hx => childFragment_of_strictPrefixMatch _ x (List.of_mem_filter hx))
  have hsub : ((node.children.filter (strictPrefixMatch (scan_of line pos))).map
      (fun child => strDrop child.name (strLen (scan_of line pos)))).Sublist
      (node.children.filterMap (childFragment (scan_of line pos))) := by
    rw [← hmapeq]
    exact (List.filter_sublist node.children).filterMap _
  have hlen : 2 ≤ (node.children.filterMap (childFragment (scan_of line pos))).length := by
    have := hsub.length_le
    rw [List.length_map] at this
    omega
  refine ⟨?_, hsub⟩
  obtain ⟨k, hk⟩ : ∃ k, PrefixNode.size node = k + 1 :=
    ⟨PrefixNode.size node - 1, by have := PrefixNode.one_le_size node; omega⟩
  unfold _complete_cmd
  rw [hk]
  simp only [completeFuel]
  rw [if_pos]
  · exact scanChildren_new_line _ _
  · rw [scanChildren_new_line]
    omega

/-- Claim C4 witness: scanning `"te"` over siblings `"test1 "`, `"test2 "`
returns both suffixes without descending. -/
theorem ambiguous_candidates_returned_without_descent_witness :
    _complete_cmd ambDemoNode "te" 2 = ["st1 ", "st2 "] := by
  have h := ambiguous_candidates_returned_without_descent ambDemoNode "te" 2
    (by decide) (by decide)
  exact h.1.trans (by decide)

/-- Claim C5: over the tree `root → "log " → "level "`, completing
`"log level"` with the cursor at its end yields exactly the single-space
candidate, produced at the second level after descending through the full
match of `"log "`. -/
theorem log_level_completes_to_single_space :
    PrefixCompleter.complete_cmd (PrefixCompleter.new logDemoRoot) "log level" 9 = (9, [" "]) ∧
    _complete_cmd (PrefixCompleter.new logDemoRoot).tree "log level" 9 =
      _complete_cmd (generate_cmd_tree logDemoLog) "level" 5 ∧
    _complete_cmd (generate_cmd_tree logDemoLog) "level" 5 = [" "] :=
  ⟨by decide, by decide, by decide⟩

/-! ### Shadow-tree lemmas -/

mutual

/-- The shadow tree is unchanged when every alias is erased first. -/
theorem generate_cmd_tree_eraseAliases : ∀ c : Command,
    generate_cmd_tree (eraseAliases c) = generate_cmd_tree c
  | .mk n a ab u subs act => by
    rw [eraseAliases, generate_cmd_tree, generate_cmd_tree,
      generate_cmd_forest_eraseAliasesList subs]

theorem generate_cmd_forest_eraseAliasesList : ∀ cs : List Command,
    generate_cmd_forest (eraseAliasesList cs) = generate_cmd_forest cs
  | [] => rfl
  | c :: cs => by
    rw [eraseAliasesList, generate_cmd_forest, generate_cmd_tree_eraseAliases c,
      generate_cmd_forest_eraseAliasesList cs, generate_cmd_forest]

end

/-- The generated forest is the generated tree of each subcommand, in order. -/
theorem generate_cmd_forest_eq_map : ∀ cs : List Command,
    generate_cmd_forest cs = cs.map generate_cmd_tree
  | [] => rfl
  | c :: cs => by
    rw [generate_cmd_forest, List.map_cons, generate_cmd_forest_eq_map cs]

mutual

/-- The names stored in a shadow tree are exactly the command names, each
with one trailing space. -/
theorem allNames_generate_cmd_tree : ∀ c : Command,
    (generate_cmd_tree c).allNames = c.namesOf.map (fun s => s ++ " ")
  | .mk n a ab u subs act => by
    rw [generate_cmd_tree, PrefixNode.allNames, Command.namesOf, List.map_cons,
      allNamesList_generate_cmd_forest subs]

theorem allNamesList_generate_cmd_forest : ∀ cs : List Command,
    allNamesList (generate_cmd_forest cs) = (namesOfList cs).map (fun s => s ++ " ")
  | [] => rfl
  | c :: cs => by
    rw [generate_cmd_forest, allNamesList, namesOfList, List.map_append,
      allNames_generate_cmd_tree c, allNamesList_generate_cmd_forest cs]

end

/-- Claim C10: the shadow tree built by `PrefixCompleter::new` mirrors the
command tree's shape and stores for each node exactly the command's name with
a single trailing space — never the alias: the construction is invariant
under erasing every alias, and the stored names are exactly the command
names suffixed with `" "`.  Consequently no candidate is derived from an
alias: a typed prefix matching only an alias (`"t1"` for the node named
`"test1"`) completes to the empty candidate list even though resolution
accepts that alias. -/
theorem shadow_tree_mirrors_names_not_aliases :
    (∀ c : Command, (generate_cmd_tree c).name = c.name ++ " ") ∧
    (∀ c : Command, (generate_cmd_tree c).children = c.subcommands.map generate_cmd_tree) ∧
    (∀ c : Command, generate_cmd_tree (eraseAliases c) = generate_cmd_tree c) ∧
    (∀ c : Command, (generate_cmd_tree c).allNames = c.namesOf.map (fun s => s ++ " ")) ∧
    PrefixCompleter.complete_cmd (PrefixCompleter.new aliasDemoRoot) "t1" 2 = (2, []) ∧
    Command.locate_subcommand aliasDemoRoot ["t1"] = some demoTest1 := by
  refine ⟨?_, ?_, generate_cmd_tree_eraseAliases, allNames_generate_cmd_tree, by decide, rfl⟩
  · intro c
    cases c
    rfl
  · intro c
    cases c
    rw [generate_cmd_tree, PrefixNode.children, Command.subcommands,
      generate_cmd_forest_eq_map]

end Xcli
